import Mathlib

/-!
Verification of the signed BigInt value layer of `ecma-bigint.c`
(JerryScript, `JERRY_NUMBER_TYPE_FLOAT64` configuration, 32-bit digits).

The heap record of a non-zero BigInt stores a sign bit and a magnitude
buffer of little-endian 32-bit digits with a non-zero top digit; we model a
record by its sign and the magnitude as a natural number, and recover the
digit buffer with `digitsOfNat` wherever the C code walks the buffer.
Zero is the distinguished non-allocated sentinel `EBigInt.zero`.

The unsigned digit kernel (`ecma_big_uint_*`) is external to the source
file; its operations are modelled from the spec as total functions on
magnitudes (allocation succeeding), except for `ecma_big_uint_mul_digit`
used by the string parser, which takes an explicit allocation schedule so
the allocation-failure paths of the parser can be stated.
-/

/-- A heap BigInt primitive record: the sign bit of `sign_and_size`
(true = negative) and the magnitude encoded by the digit buffer. -/
structure BigIntRec where
  sign : Bool
  mag : Nat
deriving DecidableEq, Repr

/-- An `ecma_value_t` holding a BigInt: the zero sentinel `ECMA_BIGINT_ZERO`
or a reference to a heap record. -/
inductive EBigInt where
  | zero
  | big (p : BigIntRec)
deriving DecidableEq, Repr

/-- Well-formed BigInt value: a heap record always has a non-zero
magnitude (invariant I1/I2 of the data model). -/
def EBigInt.Wf : EBigInt → Prop
  | .zero => True
  | .big p => 1 ≤ p.mag

instance : DecidablePred EBigInt.Wf := fun b => by
  cases b <;> simp [EBigInt.Wf] <;> infer_instance

/-- The distinct error kinds produced by the BigInt core
(`ecma_raise_range_error` / `ecma_raise_syntax_error` sites). -/
inductive EcmaError where
  /-- range error: Cannot allocate memory for a BigInt value -/
  | memory
  /-- the two syntax-error sites of `ecma_bigint_parse_string` -/
  | invalidInput
  /-- range error: BigInt division by zero -/
  | divByZero
  /-- range error: Only integer numbers can be converted to BigInt -/
  | fractionalNumber
  /-- range error: Infinity or NaN cannot be converted to BigInt -/
  | notFiniteNumber
deriving DecidableEq, Repr

/-- Result of an operator entry point: a BigInt value or a raised error. -/
inductive BResult where
  | ok (b : EBigInt)
  | err (e : EcmaError)
deriving DecidableEq, Repr

/-! ## The digit buffer of a magnitude -/

/-- The little-endian 32-bit digit buffer holding magnitude `n`
(no leading zero digit; `0` has an empty buffer). -/
def digitsOfNat (n : Nat) : List Nat :=
  if h : n = 0 then [] else (n % 2 ^ 32) :: digitsOfNat (n / 2 ^ 32)
termination_by n
decreasing_by exact Nat.div_lt_self (Nat.pos_of_ne_zero h) (by norm_num)

/-- The magnitude encoded by a little-endian digit buffer. -/
def natOfDigits : List Nat → Nat
  | [] => 0
  | d :: rest => d + 2 ^ 32 * natOfDigits rest

/-- `ECMA_BIGINT_GET_SIZE`: the byte size of the magnitude buffer. -/
def sizeBytes (n : Nat) : Nat := 4 * (digitsOfNat n).length

theorem digitsOfNat_zero : digitsOfNat 0 = [] := by
  simp [digitsOfNat]

theorem digitsOfNat_eq_nil_iff {n : Nat} : digitsOfNat n = [] ↔ n = 0 := by
  constructor
  · intro h
    by_contra hn
    rw [digitsOfNat] at h
    simp [hn] at h
  · rintro rfl; exact digitsOfNat_zero

theorem digitsOfNat_of_lt {n : Nat} (h0 : n ≠ 0) (h : n < 2 ^ 32) :
    digitsOfNat n = [n] := by
  rw [digitsOfNat]
  simp only [h0, dite_false]
  rw [Nat.mod_eq_of_lt h, Nat.div_eq_of_lt h, digitsOfNat_zero]

theorem sizeBytes_zero : sizeBytes 0 = 0 := by
  simp [sizeBytes, digitsOfNat_zero]

theorem sizeBytes_of_lt {n : Nat} (h0 : n ≠ 0) (h : n < 2 ^ 32) :
    sizeBytes n = 4 := by
  simp [sizeBytes, digitsOfNat_of_lt h0 h]

theorem sizeBytes_of_ge {n : Nat} (h : 2 ^ 32 ≤ n) : 4 < sizeBytes n := by
  have h0 : n ≠ 0 := by positivity
  have h1 : n / 2 ^ 32 ≠ 0 := by
    have h2 : (1 : Nat) ≤ n / 2 ^ 32 :=
      (Nat.one_le_div_iff (by norm_num)).mpr h
    omega
  rw [sizeBytes, digitsOfNat]
  simp only [h0, dite_false, List.length_cons]
  rw [digitsOfNat]
  simp only [h1, dite_false, List.length_cons]
  omega

theorem sizeBytes_le_four_iff {n : Nat} : sizeBytes n ≤ 4 ↔ n < 2 ^ 32 := by
  constructor
  · intro h
    by_contra hn
    exact absurd h (by simpa using (sizeBytes_of_ge (le_of_not_lt hn)).not_le)
  · intro h
    rcases eq_or_ne n 0 with rfl | h0
    · simp [sizeBytes_zero]
    · simp [sizeBytes_of_lt h0 h]

theorem sizeBytes_ne_zero {n : Nat} (h : n ≠ 0) : sizeBytes n ≠ 0 := by
  have : digitsOfNat n ≠ [] := fun hc => h (digitsOfNat_eq_nil_iff.mp hc)
  simp only [sizeBytes, ne_eq, Nat.mul_eq_zero, List.length_eq_zero]
  push_neg
  exact ⟨by omega, this⟩

/-! ## The unsigned digit kernel, modelled from the spec -/

/-- Modelled from the spec: `ecma_big_uint_compare`, the kernel's unsigned
three-way comparison of two magnitudes, returning -1/0/+1. -/
def big_uint_compare (a b : Nat) : Int :=
  if a < b then -1 else if b < a then 1 else 0

/-- Modelled from the spec: `ecma_big_uint_add` on magnitudes. -/
def big_uint_add (a b : Nat) : Nat := a + b

/-- Modelled from the spec: `ecma_big_uint_sub` on magnitudes (called only
with `a > b`). -/
def big_uint_sub (a b : Nat) : Nat := a - b

/-- Modelled from the spec: `ecma_big_uint_mul` on magnitudes. -/
def big_uint_mul (a b : Nat) : Nat := a * b

/-- Modelled from the spec: `ecma_big_uint_div_mod` on magnitudes; the
zero-magnitude outcome encodes the kernel's `ECMA_BIGINT_POINTER_TO_ZERO`. -/
def big_uint_div_mod (a b : Nat) (is_mod : Bool) : Nat :=
  if is_mod then a % b else a / b

/-- Modelled from the spec: `ecma_big_uint_shift_left` on magnitudes. -/
def big_uint_shift_left (a k : Nat) : Nat := a <<< k

/-- Modelled from the spec: `ecma_big_uint_shift_right` on magnitudes; a
zero result encodes the kernel's `ECMA_BIGINT_POINTER_TO_ZERO`. -/
def big_uint_shift_right (a k : Nat) : Nat := a >>> k

/-! ## Signed value-layer operators (from the source) -/

/-- `ECMA_BIGINT_TO_SIGN` applied to a masked sign bit. -/
def ecma_bigint_to_sign (b : Bool) : Int := if b then -1 else 1

/-- `ecma_bigint_negate` on a non-zero record: copy the magnitude, flip the
sign bit (allocation modelled as succeeding). -/
def ecma_bigint_negate (p : BigIntRec) : BigIntRec := ⟨!p.sign, p.mag⟩

/-- `ecma_bigint_compare_to_bigint` on the two operands after the source's
unconditional reinterpretation as heap records. -/
def ecma_bigint_compare_to_bigint (lp rp : BigIntRec) : Int :=
  if lp.sign != rp.sign then ecma_bigint_to_sign lp.sign
  else big_uint_compare lp.mag rp.mag

/-- `ecma_bigint_compare_to_bigint` at the `ecma_value_t` level: the source
casts both operands to heap records with no zero-sentinel branch, so the
cast is meaningful only for heap-backed values; applying it to the zero
sentinel is modelled as `none`. -/
def compare_to_bigint_value (l r : EBigInt) : Option Int :=
  match l, r with
  | .big lp, .big rp => some (ecma_bigint_compare_to_bigint lp rp)
  | _, _ => none

/-- `ecma_bigint_is_equal_to_bigint`: zero-sentinel branches, then equality
of the `sign_and_size` words and `memcmp` of the digit buffers. -/
def ecma_bigint_is_equal_to_bigint (l r : EBigInt) : Bool :=
  match l, r with
  | .zero, r => r == .zero
  | .big _, .zero => false
  | .big lp, .big rp =>
    if lp.sign != rp.sign || sizeBytes lp.mag != sizeBytes rp.mag then false
    else digitsOfNat lp.mag == digitsOfNat rp.mag

/-- `ecma_bigint_add_sub`. -/
def ecma_bigint_add_sub (l r : EBigInt) (is_add : Bool) : BResult :=
  match r with
  | .zero => .ok l
  | .big rp =>
    match l with
    | .zero =>
      if !is_add then .ok (.big (ecma_bigint_negate rp))
      else .ok (.big rp)
    | .big lp =>
      let sign : Bool := if is_add then false else true
      if (lp.sign != rp.sign) = sign then
        .ok (.big ⟨lp.sign, big_uint_add lp.mag rp.mag⟩)
      else
        let compare_result := big_uint_compare lp.mag rp.mag
        if compare_result = 0 then .ok .zero
        else if 0 < compare_result then
          .ok (.big ⟨lp.sign, big_uint_sub lp.mag rp.mag⟩)
        else
          let s := if is_add then rp.sign else !rp.sign
          .ok (.big ⟨s, big_uint_sub rp.mag lp.mag⟩)

/-- `ecma_bigint_mul`. -/
def ecma_bigint_mul (l r : EBigInt) : BResult :=
  match l, r with
  | .zero, _ => .ok .zero
  | _, .zero => .ok .zero
  | .big lp, .big rp =>
    if sizeBytes lp.mag = 4 ∧ lp.mag % 2 ^ 32 = 1 then
      if lp.sign then .ok (.big (ecma_bigint_negate rp)) else .ok (.big rp)
    else if sizeBytes rp.mag = 4 ∧ rp.mag % 2 ^ 32 = 1 then
      if rp.sign then .ok (.big (ecma_bigint_negate lp)) else .ok (.big lp)
    else
      .ok (.big ⟨lp.sign != rp.sign, big_uint_mul lp.mag rp.mag⟩)

/-- `ecma_bigint_div_mod`. -/
def ecma_bigint_div_mod (l r : EBigInt) (is_mod : Bool) : BResult :=
  match r with
  | .zero => .err .divByZero
  | .big rp =>
    match l with
    | .zero => .ok .zero
    | .big lp =>
      let compare_result := big_uint_compare lp.mag rp.mag
      if compare_result < 0 then
        if !is_mod then .ok .zero else .ok (.big lp)
      else if compare_result = 0 then
        if is_mod then .ok .zero
        else .ok (.big ⟨lp.sign != rp.sign, 1⟩)
      else
        let m := big_uint_div_mod lp.mag rp.mag is_mod
        if m = 0 then .ok .zero
        else if is_mod then .ok (.big ⟨lp.sign, m⟩)
        else .ok (.big ⟨lp.sign != rp.sign, m⟩)

/-- `ecma_bigint_shift`. -/
def ecma_bigint_shift (l r : EBigInt) (is_left : Bool) : BResult :=
  match l with
  | .zero => .ok .zero
  | .big lp =>
    match r with
    | .zero => .ok (.big lp)
    | .big rp =>
      let is_left := if rp.sign then !is_left else is_left
      if 4 < sizeBytes rp.mag then
        if is_left then .err .memory else .ok .zero
      else
        let shift := rp.mag % 2 ^ 32
        if is_left then
          .ok (.big ⟨lp.sign, big_uint_shift_left lp.mag shift⟩)
        else
          let m := big_uint_shift_right lp.mag shift
          if m = 0 then .ok .zero
          else .ok (.big ⟨lp.sign, m⟩)

/-! ## Bitwise operators (two's-complement emulation) -/

/-- The kernel bitwise operation selector
(`ECMA_BIG_UINT_BITWISE_{AND,OR,XOR,AND_NOT}`). -/
inductive BitOp where
  | land
  | lor
  | lxor
  | landNot
deriving DecidableEq, Repr

/-- The `operation_and_options` word passed to the kernel: the operation
plus the `DECREASE_LEFT` / `DECREASE_RIGHT` / `INCREASE_RESULT` flags
(`DECREASE_BOTH` is both decrease flags). -/
structure BitOpts where
  op : BitOp
  decLeft : Bool
  decRight : Bool
  incResult : Bool
deriving DecidableEq, Repr

/-- Bitwise AND NOT on naturals: a bit is set iff it is set in `a` and not
in `b` (so `a &&& (a ^^^ b)` keeps exactly the bits of `a` absent from `b`). -/
def natAndNot (a b : Nat) : Nat := a &&& (a ^^^ b)

theorem natAndNot_testBit (a b i : Nat) :
    (natAndNot a b).testBit i = (a.testBit i && !b.testBit i) := by
  simp only [natAndNot, Nat.testBit_land, Nat.testBit_xor]
  cases a.testBit i <;> cases b.testBit i <;> rfl

/-- Modelled from the spec: `ecma_big_uint_bitwise_op`, the kernel bitwise
operation on magnitudes with the decrease/increase option flags; a zero
result encodes `ECMA_BIGINT_POINTER_TO_ZERO`. -/
def big_uint_bitwise_op (o : BitOpts) (a b : Nat) : Nat :=
  let x := if o.decLeft then a - 1 else a
  let y := if o.decRight then b - 1 else b
  let m :=
    match o.op with
    | .land => x &&& y
    | .lor => x ||| y
    | .lxor => x ^^^ y
    | .landNot => natAndNot x y
  if o.incResult then m + 1 else m

/-- `ecma_bigint_bitwise_op`: run the kernel, map the zero sentinel, and
set the sign bit to negative when `INCREASE_RESULT` was requested. -/
def ecma_bigint_bitwise_op (o : BitOpts) (lp rp : BigIntRec) : BResult :=
  let m := big_uint_bitwise_op o lp.mag rp.mag
  if m = 0 then .ok .zero
  else .ok (.big ⟨o.incResult, m⟩)

/-- `ecma_bigint_and`. -/
def ecma_bigint_and (l r : EBigInt) : BResult :=
  match l, r with
  | .zero, _ => .ok .zero
  | _, .zero => .ok .zero
  | .big lp, .big rp =>
    if !lp.sign then
      if !rp.sign then
        ecma_bigint_bitwise_op ⟨.land, false, false, false⟩ lp rp
      else
        ecma_bigint_bitwise_op ⟨.landNot, false, true, false⟩ lp rp
    else if !rp.sign then
      ecma_bigint_bitwise_op ⟨.landNot, false, true, false⟩ rp lp
    else
      ecma_bigint_bitwise_op ⟨.lor, true, true, true⟩ lp rp

/-- `ecma_bigint_or`. -/
def ecma_bigint_or (l r : EBigInt) : BResult :=
  match l, r with
  | .zero, r => .ok r
  | .big lp, .zero => .ok (.big lp)
  | .big lp, .big rp =>
    if !lp.sign then
      if !rp.sign then
        ecma_bigint_bitwise_op ⟨.lor, false, false, false⟩ lp rp
      else
        ecma_bigint_bitwise_op ⟨.landNot, true, false, true⟩ rp lp
    else if !rp.sign then
      ecma_bigint_bitwise_op ⟨.landNot, true, false, true⟩ lp rp
    else
      ecma_bigint_bitwise_op ⟨.land, true, true, true⟩ lp rp

/-- `ecma_bigint_xor`. -/
def ecma_bigint_xor (l r : EBigInt) : BResult :=
  match l, r with
  | .zero, r => .ok r
  | .big lp, .zero => .ok (.big lp)
  | .big lp, .big rp =>
    if !lp.sign then
      if !rp.sign then
        ecma_bigint_bitwise_op ⟨.lxor, false, false, false⟩ lp rp
      else
        ecma_bigint_bitwise_op ⟨.lxor, false, true, true⟩ lp rp
    else if !rp.sign then
      ecma_bigint_bitwise_op ⟨.lxor, true, false, true⟩ lp rp
    else
      ecma_bigint_bitwise_op ⟨.lxor, true, true, false⟩ lp rp

/-! ## The Number to BigInt bridge -/

/-- A finite IEEE-754 double as unpacked by `ecma_number_unpack`:
sign bit, 11-bit biased exponent, 52-bit fraction field. -/
structure EcmaNumber where
  sign : Bool
  biasedExp : Nat
  fraction : Nat
deriving DecidableEq, Repr

/-- NaN: maximal exponent with a non-zero fraction. -/
def EcmaNumber.isNaN (n : EcmaNumber) : Bool :=
  n.biasedExp == 2047 && n.fraction != 0

/-- `ecma_number_is_infinity`. -/
def EcmaNumber.isInfinity (n : EcmaNumber) : Bool :=
  n.biasedExp == 2047 && n.fraction == 0

/-- `ecma_number_is_finite`. -/
def EcmaNumber.isFinite (n : EcmaNumber) : Bool :=
  n.biasedExp != 2047

/-- the C comparison `number == 0` (both signed zeros). -/
def EcmaNumber.isZero (n : EcmaNumber) : Bool :=
  n.biasedExp == 0 && n.fraction == 0

/-- the C comparison `number > 0` (false on NaN). -/
def EcmaNumber.gtZero (n : EcmaNumber) : Bool :=
  !n.isNaN && !n.sign && !n.isZero

/-- the C comparison `number < 0` (false on NaN). -/
def EcmaNumber.ltZero (n : EcmaNumber) : Bool :=
  !n.isNaN && n.sign && !n.isZero

/-- The exact rational value of the double, for stating fractional-part
facts: denormals are `fraction * 2^-1074`, normals
`(2^52 + fraction) * 2^(biasedExp - 1075)`. -/
def realValue (n : EcmaNumber) : ℚ :=
  let mag : ℚ :=
    if n.biasedExp = 0 then (n.fraction : ℚ) * 2 / 2 ^ 1075
    else ((2 ^ 52 + n.fraction : ℕ) : ℚ) * 2 ^ n.biasedExp / 2 ^ 1075
  if n.sign then -mag else mag

/-- The fields of the packed word returned by
`ecma_bigint_number_to_digits`, decoded by the
`ECMA_BIGINT_NUMBER_TO_DIGITS_GET_*` macros: the digit buffer entries that
were written (count = `GET_DIGITS`), the `HAS_FRACTION` bit, and the
zero-digit count in the low 16 bits. -/
structure DigitsOut where
  digits : List Nat
  hasFraction : Bool
  zeroDigits : Nat
deriving DecidableEq, Repr

/-- `ecma_bigint_number_to_digits` (FLOAT64 configuration: fraction width
52, bias 1023, 32-bit digits). -/
def ecma_bigint_number_to_digits (n : EcmaNumber) : DigitsOut :=
  if n.biasedExp = 0 then
    ⟨[], false, 0⟩
  else if n.biasedExp < 1023 then
    ⟨[], true, 0⟩
  else
    let e := n.biasedExp - 1023
    let m := n.fraction ||| (1 <<< 52)
    if e ≤ 52 then
      let hasFrac : Bool := decide (e < 52) && decide ((m <<< (e + 12)) % 2 ^ 64 ≠ 0)
      let f := m >>> (52 - e)
      let d0 := f % 2 ^ 32
      let d1 := (f >>> 32) % 2 ^ 32
      ⟨if d1 = 0 then [d0] else [d0, d1], hasFrac, 0⟩
    else
      let d0 := m % 2 ^ 32
      let d1 := (m >>> 32) % 2 ^ 32
      let extra := e - 52
      let sl := extra &&& 31
      let zd := extra >>> 5
      if sl = 0 then
        ⟨[d0, d1], false, zd⟩
      else
        let sr := 32 - sl
        let d2 := d1 >>> sr
        let d1b := ((d1 <<< sl) % 2 ^ 32) ||| (d0 >>> sr)
        let d0b := (d0 <<< sl) % 2 ^ 32
        ⟨if d2 = 0 then [d0b, d1b] else [d0b, d1b, d2], false, zd⟩

/-- `ecma_bigint_number_to_bigint`: the record's buffer is `zero_size`
zero bytes followed by the decoded digits. -/
def ecma_bigint_number_to_bigint (n : EcmaNumber) : BResult :=
  if !n.isFinite then .err .notFiniteNumber
  else
    let r := ecma_bigint_number_to_digits n
    if r.hasFraction then .err .fractionalNumber
    else if r.digits.length = 0 then .ok .zero
    else
      let mag := natOfDigits (List.replicate r.zeroDigits 0 ++ r.digits)
      .ok (.big ⟨n.ltZero, mag⟩)

/-- `ecma_bigint_is_equal_to_number`. -/
def ecma_bigint_is_equal_to_number (l : EBigInt) (n : EcmaNumber) : Bool :=
  if !n.isFinite then false
  else
    match l with
    | .zero => n.isZero
    | .big lp =>
      if lp.sign && n.gtZero then false
      else if !lp.sign && n.ltZero then false
      else
        let r := ecma_bigint_number_to_digits n
        if r.hasFraction then false
        else if sizeBytes lp.mag != 4 * r.digits.length + 4 * r.zeroDigits then
          false
        else
          let L := digitsOfNat lp.mag
          if L.drop r.zeroDigits != r.digits then false
          else (L.take r.zeroDigits).all (fun d => d == 0)

/-- The most-significant-first digit comparison loop of
`ecma_bigint_compare_to_number`: `some true` when the left digit is the
larger one at the first difference, `none` when all digits are equal. -/
def msbCompare : List Nat → List Nat → Option Bool
  | a :: as, b :: bs => if a = b then msbCompare as bs else some (decide (b < a))
  | _, _ => none

/-- `ecma_bigint_compare_to_number`. -/
def ecma_bigint_compare_to_number (l : EBigInt) (n : EcmaNumber) : Int :=
  let right_invert_sign : Int := if n.gtZero then -1 else 1
  match l with
  | .zero => if n.isZero then 0 else right_invert_sign
  | .big lp =>
    let left_sign := ecma_bigint_to_sign lp.sign
    if n.isZero || left_sign == right_invert_sign then left_sign
    else if n.isInfinity then right_invert_sign
    else
      let r := ecma_bigint_number_to_digits n
      if r.digits.length = 0 then left_sign
      else
        let left_size := sizeBytes lp.mag
        let right_size := 4 * r.digits.length + 4 * r.zeroDigits
        if left_size ≠ right_size then
          if right_size < left_size then left_sign else -left_sign
        else
          let L := digitsOfNat lp.mag
          match msbCompare (L.drop r.zeroDigits).reverse r.digits.reverse with
          | some gt => if gt then left_sign else -left_sign
          | none =>
            if (L.take r.zeroDigits).any (fun d => d != 0) then left_sign
            else if r.hasFraction then -left_sign else 0

/-! ## String parse -/

/-- `ecma_bigint_parse_string_options_t`: `SET_NEGATIVE`,
`DISALLOW_SYNTAX_ERROR` (return the FALSE sentinel instead of raising) and
`DISALLOW_MEMORY_ERROR` (return the NULL sentinel instead of raising). -/
structure ParseOptions where
  setNegative : Bool
  noSynError : Bool
  noMemError : Bool
deriving DecidableEq, Repr

/-- The `ecma_value_t` outcomes of `ecma_bigint_parse_string`: a BigInt
value, `ECMA_VALUE_FALSE`, `ECMA_VALUE_NULL`, or a raised error. -/
inductive EcmaValue where
  | bigint (b : EBigInt)
  | boolFalse
  | null
  | err (e : EcmaError)
deriving DecidableEq, Repr

/-- The digit decoding step of the parse loop: `'0'..'9'`, then
ASCII-lowercase (`LEXER_TO_ASCII_LOWERCASE`, bit `0x20`) `'a'..'f'`;
any other byte keeps the initial marker value `radix`. -/
def digitOfByte (radix c : Nat) : Nat :=
  if 48 ≤ c ∧ c ≤ 57 then c - 48
  else
    let ch := c ||| 32
    if 97 ≤ ch ∧ ch ≤ 102 then ch - 87 else radix

/-- The radix-prefix / sign handling at the head of
`ecma_bigint_parse_string`: with at least 3 bytes and a leading `'0'`, an
`x`/`o`/`b` prefix selects the radix (no sign allowed); otherwise with at
least 2 bytes a leading `'+'`/`'-'` is consumed. Returns the radix, the
remaining bytes and the sign. -/
def parseHead (s : List Nat) (sign0 : Bool) : Nat × List Nat × Bool :=
  match s with
  | a :: b :: rest =>
    if rest ≠ [] ∧ a = 48 then
      if b = 120 ∨ b = 88 then (16, rest, sign0)
      else if b = 111 ∨ b = 79 then (8, rest, sign0)
      else if b = 98 ∨ b = 66 then (2, rest, sign0)
      else (10, s, sign0)
    else if a = 43 then (10, b :: rest, sign0)
    else if a = 45 then (10, b :: rest, true)
    else (10, s, sign0)
  | _ => (10, s, sign0)

/-- Exit states of the digit-accumulation loop, each carrying the number
of live magnitude records at that point (the partial result is released
before a bad-digit exit; `ecma_big_uint_mul_digit` consumes its input also
when its allocation fails, per the spec's no-leak policy). -/
inductive LoopOut where
  | badDigit (live : Nat)
  | allocFail (live : Nat)
  | done (mag : Nat) (live : Nat)
deriving DecidableEq, Repr

/-- The digit-accumulation loop of `ecma_bigint_parse_string`.
`alloc i` tells whether the `i`-th call of the kernel's
`ecma_big_uint_mul_digit` (modelled from the spec as computing
`old * radix + digit`, treating a missing old value as 0) can allocate;
`res` is the running partial result, `live` the live-record count. -/
def parseLoop (radix : Nat) (alloc : Nat → Bool) :
    List Nat → Option Nat → Nat → Nat → LoopOut
  | [], some m, _, live => .done m live
  | [], none, _, live => .done 0 live
  | c :: rest, res, idx, live =>
    let d := digitOfByte radix c
    if radix ≤ d then
      .badDigit (live - (if res.isSome then 1 else 0))
    else if alloc idx then
      parseLoop radix alloc rest (some ((res.getD 0) * radix + d)) (idx + 1)
        (if res.isSome then live else live + 1)
    else
      .allocFail (live - (if res.isSome then 1 else 0))

/-- `ecma_bigint_parse_string`: returns the `ecma_value_t` result together
with the number of magnitude records still live at return (the returned
BigInt's own record included). -/
def ecma_bigint_parse_string (s : List Nat) (opts : ParseOptions)
    (alloc : Nat → Bool) : EcmaValue × Nat :=
  if s.length = 0 then
    if opts.noSynError then (.boolFalse, 0) else (.err .invalidInput, 0)
  else
    let h := parseHead s opts.setNegative
    let radix := h.1
    let sign := h.2.2
    let s2 := h.2.1.dropWhile (fun c => c == 48)
    if s2 = [] then (.bigint .zero, 0)
    else
      match parseLoop radix alloc s2 none 0 0 with
      | .badDigit live =>
        if opts.noSynError then (.boolFalse, live) else (.err .invalidInput, live)
      | .allocFail live =>
        if opts.noMemError then (.null, live) else (.err .memory, live)
      | .done m live => (.bigint (.big ⟨sign, m⟩), live)

/-! ## Helper lemmas -/

theorem lor_ne_zero_left {x y : Nat} (hx : x ≠ 0) : x ||| y ≠ 0 := by
  intro h
  apply hx
  apply Nat.eq_of_testBit_eq
  intro i
  have h2 := congrArg (fun n => Nat.testBit n i) h
  simp only [Nat.testBit_lor, Nat.zero_testBit, Bool.or_eq_false_iff] at h2
  simp [h2.1]

theorem msbCompare_self : ∀ l : List Nat, msbCompare l l = none := by
  intro l
  induction l with
  | nil => rfl
  | cons a t ih => simp [msbCompare, ih]

theorem big_uint_compare_eq_zero_iff {a b : Nat} :
    big_uint_compare a b = 0 ↔ a = b := by
  rcases lt_trichotomy a b with h | h | h <;> simp [big_uint_compare, h] <;> omega

theorem big_uint_compare_pos_iff {a b : Nat} :
    0 < big_uint_compare a b ↔ b < a := by
  rcases lt_trichotomy a b with h | h | h <;> simp [big_uint_compare, h] <;> omega

theorem big_uint_compare_neg_iff {a b : Nat} :
    big_uint_compare a b < 0 ↔ a < b := by
  rcases lt_trichotomy a b with h | h | h <;> simp [big_uint_compare, h] <;> omega

/-- The behavior of `ecma_bigint_shift` when the right magnitude occupies
more than one digit. -/
theorem shift_big_amount (lp rp : BigIntRec) (is_left : Bool)
    (h : 4 < sizeBytes rp.mag) :
    ecma_bigint_shift (.big lp) (.big rp) is_left
      = if is_left != rp.sign then .err .memory else .ok .zero := by
  have h1 : ¬ sizeBytes rp.mag ≤ 4 := by omega
  cases hr : rp.sign <;> cases hi : is_left <;>
    simp [ecma_bigint_shift, hr, hi, h, h1]

/-- The behavior of `ecma_bigint_shift` when the right magnitude fits in
one digit. -/
theorem shift_small_amount (lp rp : BigIntRec) (is_left : Bool)
    (h : sizeBytes rp.mag ≤ 4) :
    ecma_bigint_shift (.big lp) (.big rp) is_left
      = if is_left != rp.sign then
          .ok (.big ⟨lp.sign, lp.mag <<< (rp.mag % 2 ^ 32)⟩)
        else if lp.mag >>> (rp.mag % 2 ^ 32) = 0 then .ok .zero
        else .ok (.big ⟨lp.sign, lp.mag >>> (rp.mag % 2 ^ 32)⟩) := by
  have h1 : ¬ 4 < sizeBytes rp.mag := by omega
  cases hr : rp.sign <;> cases hi : is_left <;>
    simp [ecma_bigint_shift, hr, hi, h1, big_uint_shift_left, big_uint_shift_right]

/-- `ecma_bigint_add_sub` never builds a record of magnitude 0. -/
theorem add_sub_record_pos (l r : EBigInt) (is_add : Bool) (p : BigIntRec)
    (hl : l.Wf) (hr : r.Wf)
    (h : ecma_bigint_add_sub l r is_add = .ok (.big p)) : 1 ≤ p.mag := by
  cases r with
  | zero =>
    cases l with
    | zero => simp [ecma_bigint_add_sub] at h
    | big lp =>
      simp only [ecma_bigint_add_sub, BResult.ok.injEq, EBigInt.big.injEq] at h
      rw [← h]
      exact hl
  | big rp =>
    cases l with
    | zero =>
      simp only [ecma_bigint_add_sub] at h
      cases is_add <;>
        simp only [Bool.not_false, Bool.not_true, if_true, if_false,
          Bool.false_eq_true, BResult.ok.injEq, EBigInt.big.injEq] at h <;>
        rw [← h] <;>
        exact hr
    | big lp =>
      have h1 : 1 ≤ lp.mag := hl
      have h2 : 1 ≤ rp.mag := hr
      simp only [ecma_bigint_add_sub] at h
      by_cases hsel : (lp.sign != rp.sign) = (if is_add then false else true)
      · simp only [hsel, if_true, BResult.ok.injEq, EBigInt.big.injEq] at h
        rw [← h]
        simp only [big_uint_add]
        omega
      · simp only [hsel, if_false] at h
        rcases lt_trichotomy lp.mag rp.mag with hlt | heq | hgt
        · have hc : big_uint_compare lp.mag rp.mag = -1 := by
            simp [big_uint_compare, hlt]
          rw [hc] at h
          norm_num at h
          rw [← h]
          show 1 ≤ big_uint_sub rp.mag lp.mag
          simp only [big_uint_sub]
          omega
        · have hc : big_uint_compare lp.mag rp.mag = 0 := by
            simp [big_uint_compare, heq]
          rw [hc] at h
          norm_num at h
          exact EBigInt.noConfusion h
        · have hc : big_uint_compare lp.mag rp.mag = 1 := by
            have hn : ¬ lp.mag < rp.mag := by omega
            simp [big_uint_compare, hn, hgt]
          rw [hc] at h
          norm_num at h
          rw [← h]
          show 1 ≤ big_uint_sub lp.mag rp.mag
          simp only [big_uint_sub]
          omega

/-- `ecma_bigint_mul` never builds a record of magnitude 0. -/
theorem mul_record_pos (l r : EBigInt) (p : BigIntRec) (hl : l.Wf) (hr : r.Wf)
    (h : ecma_bigint_mul l r = .ok (.big p)) : 1 ≤ p.mag := by
  cases l with
  | zero => simp [ecma_bigint_mul] at h
  | big lp =>
    cases r with
    | zero => simp [ecma_bigint_mul] at h
    | big rp =>
      have h1 : 1 ≤ lp.mag := hl
      have h2 : 1 ≤ rp.mag := hr
      simp only [ecma_bigint_mul] at h
      split at h
      · split at h <;>
          (simp only [BResult.ok.injEq, EBigInt.big.injEq] at h; rw [← h]) <;>
          exact h2
      · split at h
        · split at h <;>
            (simp only [BResult.ok.injEq, EBigInt.big.injEq] at h; rw [← h]) <;>
            exact h1
        · simp only [BResult.ok.injEq, EBigInt.big.injEq] at h
          rw [← h]
          simp only [big_uint_mul]
          exact Nat.mul_pos h1 h2

/-- `ecma_bigint_div_mod` never builds a record of magnitude 0. -/
theorem div_mod_record_pos (l r : EBigInt) (is_mod : Bool) (p : BigIntRec)
    (hl : l.Wf)
    (h : ecma_bigint_div_mod l r is_mod = .ok (.big p)) : 1 ≤ p.mag := by
  cases r with
  | zero => simp [ecma_bigint_div_mod] at h
  | big rp =>
    cases l with
    | zero => simp [ecma_bigint_div_mod] at h
    | big lp =>
      simp only [ecma_bigint_div_mod] at h
      rcases lt_trichotomy lp.mag rp.mag with hlt | heq | hgt
      · have hc : big_uint_compare lp.mag rp.mag = -1 := by
          simp [big_uint_compare, hlt]
        rw [hc] at h
        cases is_mod with
        | false => simp at h
        | true =>
          norm_num at h
          rw [← h]
          exact hl
      · have hc : big_uint_compare lp.mag rp.mag = 0 := by
          simp [big_uint_compare, heq]
        rw [hc] at h
        cases is_mod with
        | true => simp at h
        | false =>
          norm_num at h
          rw [← h]
      · have hc : big_uint_compare lp.mag rp.mag = 1 := by
          have hn : ¬ lp.mag < rp.mag := by omega
          simp [big_uint_compare, hn, hgt]
        rw [hc] at h
        norm_num at h
        by_cases hm : big_uint_div_mod lp.mag rp.mag is_mod = 0
        · simp [hm] at h
        · simp only [hm, if_false] at h
          cases is_mod <;>
            simp only [Bool.false_eq_true, if_false, if_true,
              BResult.ok.injEq, EBigInt.big.injEq] at h <;>
            rw [← h] <;>
            dsimp only <;>
            omega

/-- `ecma_bigint_shift` never builds a record of magnitude 0. -/
theorem shift_record_pos (l r : EBigInt) (is_left : Bool) (p : BigIntRec)
    (hl : l.Wf)
    (h : ecma_bigint_shift l r is_left = .ok (.big p)) : 1 ≤ p.mag := by
  cases l with
  | zero => simp [ecma_bigint_shift] at h
  | big lp =>
    have h1 : 1 ≤ lp.mag := hl
    cases r with
    | zero =>
      simp only [ecma_bigint_shift, BResult.ok.injEq, EBigInt.big.injEq] at h
      rw [← h]
      exact h1
    | big rp =>
      by_cases hs : 4 < sizeBytes rp.mag
      · rw [shift_big_amount lp rp is_left hs] at h
        split at h <;> simp at h
      · rw [shift_small_amount lp rp is_left (by omega)] at h
        cases hbd : is_left != rp.sign with
        | true =>
          rw [hbd] at h
          norm_num at h
          rw [← h]
          dsimp only
          rw [Nat.shiftLeft_eq]
          exact Nat.mul_pos h1 (Nat.two_pow_pos _)
        | false =>
          rw [hbd] at h
          norm_num at h
          split at h
          · simp at h
          · rename_i hm
            simp only [BResult.ok.injEq, EBigInt.big.injEq] at h
            rw [← h]
            exact Nat.one_le_iff_ne_zero.mpr hm

/-- `ecma_bigint_bitwise_op` never builds a record of magnitude 0
(the kernel zero sentinel is mapped to the value zero sentinel first). -/
theorem bitwise_wrapper_record_pos (o : BitOpts) (lp rp p : BigIntRec)
    (h : ecma_bigint_bitwise_op o lp rp = .ok (.big p)) : 1 ≤ p.mag := by
  unfold ecma_bigint_bitwise_op at h
  by_cases hm : big_uint_bitwise_op o lp.mag rp.mag = 0
  · simp [hm] at h
  · simp only [hm, if_false, BResult.ok.injEq, EBigInt.big.injEq] at h
    rw [← h]
    show 1 ≤ big_uint_bitwise_op o lp.mag rp.mag
    omega

/-- The three bitwise entry points never build a record of magnitude 0. -/
theorem and_or_xor_record_pos (l r : EBigInt) (p : BigIntRec)
    (hl : l.Wf) (hr : r.Wf)
    (h : ecma_bigint_and l r = .ok (.big p) ∨ ecma_bigint_or l r = .ok (.big p)
      ∨ ecma_bigint_xor l r = .ok (.big p)) : 1 ≤ p.mag := by
  rcases h with h | h | h
  · cases l with
    | zero => simp [ecma_bigint_and] at h
    | big lp =>
      cases r with
      | zero => simp [ecma_bigint_and] at h
      | big rp =>
        simp only [ecma_bigint_and] at h
        split at h
        · split at h <;> exact bitwise_wrapper_record_pos _ _ _ _ h
        · split at h
          · exact bitwise_wrapper_record_pos _ _ _ _ h
          · exact bitwise_wrapper_record_pos _ _ _ _ h
  · cases l with
    | zero =>
      cases r with
      | zero => simp [ecma_bigint_or] at h
      | big rp =>
        simp only [ecma_bigint_or, BResult.ok.injEq, EBigInt.big.injEq] at h
        rw [← h]
        exact hr
    | big lp =>
      cases r with
      | zero =>
        simp only [ecma_bigint_or, BResult.ok.injEq, EBigInt.big.injEq] at h
        rw [← h]
        exact hl
      | big rp =>
        simp only [ecma_bigint_or] at h
        split at h
        · split at h
          · exact bitwise_wrapper_record_pos _ _ _ _ h
          · exact bitwise_wrapper_record_pos _ _ _ _ h
        · split at h
          · exact bitwise_wrapper_record_pos _ _ _ _ h
          · exact bitwise_wrapper_record_pos _ _ _ _ h
  · cases l with
    | zero =>
      cases r with
      | zero => simp [ecma_bigint_xor] at h
      | big rp =>
        simp only [ecma_bigint_xor, BResult.ok.injEq, EBigInt.big.injEq] at h
        rw [← h]
        exact hr
    | big lp =>
      cases r with
      | zero =>
        simp only [ecma_bigint_xor, BResult.ok.injEq, EBigInt.big.injEq] at h
        rw [← h]
        exact hl
      | big rp =>
        simp only [ecma_bigint_xor] at h
        split at h
        · split at h
          · exact bitwise_wrapper_record_pos _ _ _ _ h
          · exact bitwise_wrapper_record_pos _ _ _ _ h
        · split at h
          · exact bitwise_wrapper_record_pos _ _ _ _ h
          · exact bitwise_wrapper_record_pos _ _ _ _ h

theorem digitOfByte_eq_zero {radix c : Nat} (hr : 1 ≤ radix)
    (h : digitOfByte radix c = 0) : c = 48 := by
  unfold digitOfByte at h
  by_cases h1 : 48 ≤ c ∧ c ≤ 57
  · rw [if_pos h1] at h
    omega
  · rw [if_neg h1] at h
    have h3 : (if 97 ≤ (c ||| 32) ∧ (c ||| 32) ≤ 102 then (c ||| 32) - 87 else radix)
        = 0 := h
    by_cases h2 : 97 ≤ (c ||| 32) ∧ (c ||| 32) ≤ 102
    · rw [if_pos h2] at h3
      omega
    · rw [if_neg h2] at h3
      omega

/-- A successful parse loop started from a positive partial result keeps a
positive magnitude. -/
theorem parseLoop_done_pos (radix : Nat) (alloc : Nat → Bool) (hr : 1 ≤ radix) :
    ∀ (bytes : List Nat) (m idx live m2 live2 : Nat), 1 ≤ m →
      parseLoop radix alloc bytes (some m) idx live = .done m2 live2 →
      1 ≤ m2 := by
  intro bytes
  induction bytes with
  | nil =>
    intro m idx live m2 live2 hm h
    simp only [parseLoop, LoopOut.done.injEq] at h
    omega
  | cons c rest ih =>
    intro m idx live m2 live2 hm h
    simp only [parseLoop] at h
    split at h
    · simp at h
    · split at h
      · refine ih _ _ _ _ _ ?_ h
        have h2 : 0 < m * radix := Nat.mul_pos hm hr
        simp only [Option.getD_some]
        omega
      · simp at h

/-- A successful parse loop whose first byte is not `'0'` produces a
positive magnitude. -/
theorem parseLoop_first_pos (radix : Nat) (alloc : Nat → Bool) (hr : 1 ≤ radix)
    (c : Nat) (rest : List Nat) (idx live m2 live2 : Nat) (hc : c ≠ 48)
    (h : parseLoop radix alloc (c :: rest) none idx live = .done m2 live2) :
    1 ≤ m2 := by
  simp only [parseLoop] at h
  split at h
  · simp at h
  · split at h
    · have hd0 : digitOfByte radix c ≠ 0 := fun hz => hc (digitOfByte_eq_zero hr hz)
      refine parseLoop_done_pos radix alloc hr rest _ _ _ _ _ ?_ h
      simp only [Option.getD_none]
      omega
    · simp at h

theorem dropWhile_beq48_head (l : List Nat) (c : Nat) (rest : List Nat)
    (h : l.dropWhile (fun x => x == 48) = c :: rest) : c ≠ 48 := by
  induction l with
  | nil => simp [List.dropWhile] at h
  | cons a t ih =>
    rw [List.dropWhile_cons] at h
    by_cases ha : a = 48
    · simp only [ha, beq_self_eq_true, if_true] at h
      exact ih h
    · have hb : (a == 48) = false := beq_eq_false_iff_ne.mpr ha
      simp only [hb, Bool.false_eq_true, if_false, List.cons.injEq] at h
      rw [← h.1]
      exact ha

theorem parseHead_radix_pos (s : List Nat) (b : Bool) : 1 ≤ (parseHead s b).1 := by
  rcases s with _ | ⟨a, _ | ⟨c, rest⟩⟩
  · norm_num [parseHead]
  · norm_num [parseHead]
  · simp only [parseHead]
    split_ifs <;> norm_num

/-- `ecma_bigint_parse_string` never builds a record of magnitude 0. -/
theorem parse_record_pos (s : List Nat) (opts : ParseOptions)
    (alloc : Nat → Bool) (p : BigIntRec)
    (h : (ecma_bigint_parse_string s opts alloc).1 = .bigint (.big p)) :
    1 ≤ p.mag := by
  unfold ecma_bigint_parse_string at h
  by_cases h0 : s.length = 0
  · rw [if_pos h0] at h
    cases hos : opts.noSynError <;> simp [hos] at h
  · rw [if_neg h0] at h
    by_cases h2 : ((parseHead s opts.setNegative).2.1.dropWhile (fun c => c == 48)) = []
    · simp [h2] at h
    · simp only [h2, if_false] at h
      obtain ⟨c, rest, hcr⟩ : ∃ c rest,
          (parseHead s opts.setNegative).2.1.dropWhile (fun x => x == 48)
            = c :: rest := by
        rcases hs2 : (parseHead s opts.setNegative).2.1.dropWhile (fun x => x == 48) with
          _ | ⟨c, rest⟩
        · exact absurd hs2 h2
        · exact ⟨c, rest, rfl⟩
      rw [hcr] at h
      cases hpl : parseLoop (parseHead s opts.setNegative).1 alloc (c :: rest) none 0 0 with
      | badDigit live =>
        rw [hpl] at h
        cases hos : opts.noSynError <;> simp [hos] at h
      | allocFail live =>
        rw [hpl] at h
        cases hom : opts.noMemError <;> simp [hom] at h
      | done m live =>
        rw [hpl] at h
        simp only [EcmaValue.bigint.injEq, EBigInt.big.injEq] at h
        rw [← h]
        exact parseLoop_first_pos _ alloc (parseHead_radix_pos s opts.setNegative)
          c rest 0 0 m live (dropWhile_beq48_head _ c rest hcr) hpl

/-- The live-record count maintained by the parse loop: zero after an
error exit, one at a successful exit. -/
theorem parseLoop_live (radix : Nat) (alloc : Nat → Bool) :
    ∀ (bytes : List Nat) (res : Option Nat) (idx : Nat),
      (bytes = [] → res.isSome = true) →
      match parseLoop radix alloc bytes res idx (if res.isSome then 1 else 0) with
      | .badDigit live => live = 0
      | .allocFail live => live = 0
      | .done _ live => live = 1 := by
  intro bytes
  induction bytes with
  | nil =>
    intro res idx hne
    cases res with
    | none => simp at hne
    | some m => simp [parseLoop]
  | cons c rest ih =>
    intro res idx hne
    by_cases hd : radix ≤ digitOfByte radix c
    · cases res <;> simp [parseLoop, hd]
    · by_cases ha : alloc idx
      · cases res with
        | none =>
          have h2 := ih (some (digitOfByte radix c)) (idx + 1) (fun _ => rfl)
          simpa [parseLoop, hd, ha] using h2
        | some m =>
          have h2 := ih (some (m * radix + digitOfByte radix c)) (idx + 1) (fun _ => rfl)
          simpa [parseLoop, hd, ha] using h2
      · cases res <;> simp [parseLoop, hd, ha]

/-- The value result and live count of `ecma_bigint_parse_string`: every
non-BigInt outcome leaves zero live records, a BigInt record leaves
exactly its own. -/
theorem parse_live_count (s : List Nat) (opts : ParseOptions) (alloc : Nat → Bool) :
    (ecma_bigint_parse_string s opts alloc).2
      = match (ecma_bigint_parse_string s opts alloc).1 with
        | .bigint (.big _) => 1
        | _ => 0 := by
  unfold ecma_bigint_parse_string
  by_cases h0 : s.length = 0
  · rw [if_pos h0]
    cases hos : opts.noSynError <;> simp
  · rw [if_neg h0]
    by_cases h2 : ((parseHead s opts.setNegative).2.1.dropWhile (fun c => c == 48)) = []
    · simp [h2]
    · simp only [h2, if_false]
      have hlive := parseLoop_live (parseHead s opts.setNegative).1 alloc
        ((parseHead s opts.setNegative).2.1.dropWhile (fun c => c == 48)) none 0
        (fun hh => absurd hh h2)
      simp only [Option.isSome_none, Bool.false_eq_true, if_false] at hlive
      cases hpl : parseLoop (parseHead s opts.setNegative).1 alloc
          ((parseHead s opts.setNegative).2.1.dropWhile (fun c => c == 48)) none 0 0 with
      | badDigit live =>
        rw [hpl] at hlive
        cases hos : opts.noSynError <;> simp [hlive]
      | allocFail live =>
        rw [hpl] at hlive
        cases hom : opts.noMemError <;> simp [hlive]
      | done m live =>
        rw [hpl] at hlive
        simp [hlive]

/-- Toggling `DISALLOW_SYNTAX_ERROR` swaps the FALSE sentinel and the
syntax error, leaving everything else unchanged. -/
theorem parse_syn_toggle (s : List Nat) (neg mem : Bool) (alloc : Nat → Bool) :
    ((ecma_bigint_parse_string s ⟨neg, true, mem⟩ alloc).1 = .boolFalse
      ↔ (ecma_bigint_parse_string s ⟨neg, false, mem⟩ alloc).1 = .err .invalidInput) := by
  unfold ecma_bigint_parse_string
  by_cases h0 : s.length = 0
  · simp [h0]
  · simp only [h0, if_false]
    by_cases h2 : ((parseHead s neg).2.1.dropWhile (fun c => c == 48)) = []
    · simp [h2]
    · simp only [h2, if_false]
      cases hpl : parseLoop (parseHead s neg).1 alloc
          ((parseHead s neg).2.1.dropWhile (fun c => c == 48)) none 0 0 with
      | badDigit live => simp [hpl]
      | allocFail live => cases mem <;> simp [hpl]
      | done m live => simp [hpl]

/-- Toggling `DISALLOW_MEMORY_ERROR` swaps the NULL sentinel and the
memory range error, leaving everything else unchanged. -/
theorem parse_mem_toggle (s : List Nat) (neg syn : Bool) (alloc : Nat → Bool) :
    ((ecma_bigint_parse_string s ⟨neg, syn, true⟩ alloc).1 = .null
      ↔ (ecma_bigint_parse_string s ⟨neg, syn, false⟩ alloc).1 = .err .memory) := by
  unfold ecma_bigint_parse_string
  by_cases h0 : s.length = 0
  · cases syn <;> simp [h0]
  · simp only [h0, if_false]
    by_cases h2 : ((parseHead s neg).2.1.dropWhile (fun c => c == 48)) = []
    · simp [h2]
    · simp only [h2, if_false]
      cases hpl : parseLoop (parseHead s neg).1 alloc
          ((parseHead s neg).2.1.dropWhile (fun c => c == 48)) none 0 0 with
      | badDigit live => cases syn <;> simp [hpl]
      | allocFail live => simp [hpl]
      | done m live => simp [hpl]

/-- The neutral sentinels appear exactly under their `DISALLOW_*` option,
and the corresponding errors exactly without it. -/
theorem parse_flag_necessity (s : List Nat) (opts : ParseOptions) (alloc : Nat → Bool) :
    ((ecma_bigint_parse_string s opts alloc).1 = .boolFalse → opts.noSynError = true) ∧
    ((ecma_bigint_parse_string s opts alloc).1 = .err .invalidInput →
      opts.noSynError = false) ∧
    ((ecma_bigint_parse_string s opts alloc).1 = .null → opts.noMemError = true) ∧
    ((ecma_bigint_parse_string s opts alloc).1 = .err .memory →
      opts.noMemError = false) := by
  unfold ecma_bigint_parse_string
  by_cases h0 : s.length = 0
  · rw [if_pos h0]
    cases hos : opts.noSynError <;> simp [hos]
  · rw [if_neg h0]
    by_cases h2 : ((parseHead s opts.setNegative).2.1.dropWhile (fun c => c == 48)) = []
    · simp [h2]
    · simp only [h2, if_false]
      cases hpl : parseLoop (parseHead s opts.setNegative).1 alloc
          ((parseHead s opts.setNegative).2.1.dropWhile (fun c => c == 48)) none 0 0 with
      | badDigit live =>
        cases hos : opts.noSynError <;> simp [hos]
      | allocFail live =>
        cases hom : opts.noMemError <;> simp [hom]
      | done m live => simp

theorem dropWhile_beq48_replicate (k : Nat) :
    (List.replicate k 48).dropWhile (fun c => c == 48) = [] := by
  induction k with
  | zero => rfl
  | succ n ih => simpa [List.replicate_succ, List.dropWhile_cons] using ih

theorem parseHead_replicate_zeros (k : Nat) (b : Bool) :
    parseHead (List.replicate (k + 1) 48) b = (10, List.replicate (k + 1) 48, b) := by
  match k with
  | 0 => rfl
  | 1 => rfl
  | n + 2 =>
    show parseHead (48 :: 48 :: 48 :: List.replicate n 48) b = _
    simp [parseHead, List.replicate_succ]

/-! ## Claim theorems -/

/-- **C1.** The claim states that `ecma_bigint_compare_to_bigint` flips the
kernel's unsigned comparison when both operands are negative. The code does
not: for left = -2 and right = -1 (equal signs, both negative) it returns
the kernel magnitude comparison of 2 against 1, which is +1, although
-2 < -1 and the function's own doc comment promises -1 in that case. -/
theorem compare_to_bigint_missing_negative_flip :
    ecma_bigint_compare_to_bigint ⟨true, 2⟩ ⟨true, 1⟩ = 1 ∧
    big_uint_compare 2 1 = 1 ∧
    ecma_bigint_compare_to_bigint ⟨true, 2⟩ ⟨true, 1⟩ ≠ -1 := by
  refine ⟨by decide, by decide, by decide⟩

/-- **C2.** The claim states that every finite double with a non-zero
fractional part — explicitly including denormals, whose biased exponent is
0 — makes `ecma_bigint_number_to_bigint` raise a range error. The decoder
maps `biased_exp == 0` to digit count 0 with `has_fraction` clear, so the
smallest positive denormal (value 2^-1074, which is finite and not an
integer) is converted to the BigInt zero sentinel with no error raised;
the `is_equal_to_number` half of the claim does hold at this input. -/
theorem number_to_bigint_denormal_not_rejected :
    EcmaNumber.isFinite ⟨false, 0, 1⟩ = true ∧
    (¬ ∃ z : ℤ, realValue ⟨false, 0, 1⟩ = (z : ℚ)) ∧
    ecma_bigint_number_to_bigint ⟨false, 0, 1⟩ = .ok .zero ∧
    (∀ x : EBigInt, x.Wf →
      ecma_bigint_is_equal_to_number x ⟨false, 0, 1⟩ = false) := by
  refine ⟨by decide, ?_, by decide, ?_⟩
  · rintro ⟨z, hz⟩
    have h1 : (0 : ℚ) < realValue ⟨false, 0, 1⟩ := by norm_num [realValue]
    have h2 : realValue ⟨false, 0, 1⟩ < 1 := by norm_num [realValue]
    rw [hz] at h1 h2
    have h3 : (0 : ℤ) < z := by exact_mod_cast h1
    have h4 : z < 1 := by exact_mod_cast h2
    omega
  · intro x hwf
    have hd : ecma_bigint_number_to_digits ⟨false, 0, 1⟩ = ⟨[], false, 0⟩ := by decide
    cases x with
    | zero => decide
    | big lp =>
      have hm : lp.mag ≠ 0 := by
        simp only [EBigInt.Wf] at hwf
        omega
      cases hs : lp.sign <;>
        simp [ecma_bigint_is_equal_to_number, hd, hs, EcmaNumber.gtZero,
          EcmaNumber.ltZero, EcmaNumber.isNaN, EcmaNumber.isZero,
          EcmaNumber.isFinite, sizeBytes_ne_zero hm]

/-- **C3.** For non-zero operands, the signed and/or/xor operators are
computed by the four sign-selected identities of the two's-complement
emulation table (magnitudes x, y ≥ 1; a result built with `INCREASE_RESULT`
carries magnitude base + 1 and the negative sign), and whenever the
`INCREASE_RESULT` flag is passed, a non-zero kernel result has its sign bit
set to negative. -/
theorem bitwise_sign_selected_identities :
    (∀ x y : Nat, 1 ≤ x → 1 ≤ y →
      (ecma_bigint_and (.big ⟨false, x⟩) (.big ⟨false, y⟩)
          = if x &&& y = 0 then .ok .zero else .ok (.big ⟨false, x &&& y⟩)) ∧
      (ecma_bigint_and (.big ⟨false, x⟩) (.big ⟨true, y⟩)
          = if natAndNot x (y - 1) = 0 then .ok .zero
            else .ok (.big ⟨false, natAndNot x (y - 1)⟩)) ∧
      (ecma_bigint_and (.big ⟨true, x⟩) (.big ⟨false, y⟩)
          = if natAndNot y (x - 1) = 0 then .ok .zero
            else .ok (.big ⟨false, natAndNot y (x - 1)⟩)) ∧
      (ecma_bigint_and (.big ⟨true, x⟩) (.big ⟨true, y⟩)
          = .ok (.big ⟨true, ((x - 1) ||| (y - 1)) + 1⟩)) ∧
      (ecma_bigint_or (.big ⟨false, x⟩) (.big ⟨false, y⟩)
          = .ok (.big ⟨false, x ||| y⟩)) ∧
      (ecma_bigint_or (.big ⟨false, x⟩) (.big ⟨true, y⟩)
          = .ok (.big ⟨true, natAndNot (y - 1) x + 1⟩)) ∧
      (ecma_bigint_or (.big ⟨true, x⟩) (.big ⟨false, y⟩)
          = .ok (.big ⟨true, natAndNot (x - 1) y + 1⟩)) ∧
      (ecma_bigint_or (.big ⟨true, x⟩) (.big ⟨true, y⟩)
          = .ok (.big ⟨true, ((x - 1) &&& (y - 1)) + 1⟩)) ∧
      (ecma_bigint_xor (.big ⟨false, x⟩) (.big ⟨false, y⟩)
          = if x ^^^ y = 0 then .ok .zero else .ok (.big ⟨false, x ^^^ y⟩)) ∧
      (ecma_bigint_xor (.big ⟨false, x⟩) (.big ⟨true, y⟩)
          = .ok (.big ⟨true, (x ^^^ (y - 1)) + 1⟩)) ∧
      (ecma_bigint_xor (.big ⟨true, x⟩) (.big ⟨false, y⟩)
          = .ok (.big ⟨true, ((x - 1) ^^^ y) + 1⟩)) ∧
      (ecma_bigint_xor (.big ⟨true, x⟩) (.big ⟨true, y⟩)
          = if (x - 1) ^^^ (y - 1) = 0 then .ok .zero
            else .ok (.big ⟨false, (x - 1) ^^^ (y - 1)⟩))) ∧
    (∀ (o : BitOpts) (lp rp p : BigIntRec),
      o.incResult = true →
      ecma_bigint_bitwise_op o lp rp = .ok (.big p) → p.sign = true) := by
  constructor
  · intro x y hx hy
    have hxor : x ||| y ≠ 0 := lor_ne_zero_left (by omega)
    refine ⟨?_, ?_, ?_, ?_, ?_, ?_, ?_, ?_, ?_, ?_, ?_, ?_⟩ <;>
      simp [ecma_bigint_and, ecma_bigint_or, ecma_bigint_xor,
        ecma_bigint_bitwise_op, big_uint_bitwise_op, hxor]
  · intro o lp rp p hinc h
    unfold ecma_bigint_bitwise_op at h
    by_cases hm : big_uint_bitwise_op o lp.mag rp.mag = 0
    · simp [hm] at h
    · simp only [hm, if_false, BResult.ok.injEq, EBigInt.big.injEq] at h
      rw [← h]
      exact hinc

/-- Witness for **C3**: `-1n & 6n = 6n` (spec scenario 5), obtained from
the (-x, +y) AND conjunct at x = 1, y = 6. -/
theorem bitwise_sign_selected_identities_witness :
    ecma_bigint_and (.big ⟨true, 1⟩) (.big ⟨false, 6⟩) = .ok (.big ⟨false, 6⟩) := by
  have h := (bitwise_sign_selected_identities.1 1 6 (by decide) (by decide)).2.2.1
  simpa [natAndNot] using h

/-- **C4.** `ecma_bigint_add_sub` on two non-zero operands: when
`left.sign XOR right.sign` equals 0 for addition (respectively the sign
mask for subtraction) the result is `|left| + |right|` with left's sign;
otherwise equal magnitudes give the zero sentinel, `|left| > |right|`
gives `|left| - |right|` with left's sign, and `|left| < |right|` gives
`|right| - |left|` with right's sign for addition, flipped for
subtraction. -/
theorem add_sub_sign_magnitude :
    ∀ (lp rp : BigIntRec) (is_add : Bool),
      (((lp.sign != rp.sign) = (if is_add then false else true)) →
        ecma_bigint_add_sub (.big lp) (.big rp) is_add
          = .ok (.big ⟨lp.sign, lp.mag + rp.mag⟩)) ∧
      (((lp.sign != rp.sign) ≠ (if is_add then false else true)) →
        (lp.mag = rp.mag →
          ecma_bigint_add_sub (.big lp) (.big rp) is_add = .ok .zero) ∧
        (rp.mag < lp.mag →
          ecma_bigint_add_sub (.big lp) (.big rp) is_add
            = .ok (.big ⟨lp.sign, lp.mag - rp.mag⟩)) ∧
        (lp.mag < rp.mag →
          ecma_bigint_add_sub (.big lp) (.big rp) is_add
            = .ok (.big ⟨if is_add then rp.sign else !rp.sign, rp.mag - lp.mag⟩))) := by
  intro lp rp is_add
  obtain ⟨ls, lm⟩ := lp
  obtain ⟨rs, rm⟩ := rp
  cases is_add <;> cases ls <;> cases rs <;>
    refine ⟨fun h => ?_, fun h => ⟨fun hm => ?_, fun hm => ?_, fun hm => ?_⟩⟩
  all_goals
    first
      | (simp at h; done)
      | (simp [ecma_bigint_add_sub, big_uint_add]; done)
      | (have h2 : lm = rm := hm
         subst h2
         simp [ecma_bigint_add_sub, big_uint_compare]
         done)
      | (have h2 : rm < lm := hm
         have h1 : ¬ lm < rm := by omega
         simp [ecma_bigint_add_sub, big_uint_compare, h2, h1, big_uint_sub]
         done)
      | (have h2 : lm < rm := hm
         have h1 : ¬ rm < lm := by omega
         simp [ecma_bigint_add_sub, big_uint_compare, h2, h1, big_uint_sub]
         done)

/-- Witness for **C4**: concrete instances of all four cases,
5 + 3 = 8, 5 - 5 = 0, 5 - 3 = 2, 3 + (-5) = -2. -/
theorem add_sub_sign_magnitude_witness :
    ecma_bigint_add_sub (.big ⟨false, 5⟩) (.big ⟨false, 3⟩) true
      = .ok (.big ⟨false, 8⟩) ∧
    ecma_bigint_add_sub (.big ⟨false, 5⟩) (.big ⟨false, 5⟩) false = .ok .zero ∧
    ecma_bigint_add_sub (.big ⟨false, 5⟩) (.big ⟨false, 3⟩) false
      = .ok (.big ⟨false, 2⟩) ∧
    ecma_bigint_add_sub (.big ⟨false, 3⟩) (.big ⟨true, 5⟩) true
      = .ok (.big ⟨true, 2⟩) := by
  refine ⟨?_, ?_, ?_, ?_⟩
  · exact (add_sub_sign_magnitude ⟨false, 5⟩ ⟨false, 3⟩ true).1 (by decide)
  · exact ((add_sub_sign_magnitude ⟨false, 5⟩ ⟨false, 5⟩ false).2 (by decide)).1 rfl
  · exact ((add_sub_sign_magnitude ⟨false, 5⟩ ⟨false, 3⟩ false).2 (by decide)).2.1 (by decide)
  · exact ((add_sub_sign_magnitude ⟨false, 3⟩ ⟨true, 5⟩ true).2 (by decide)).2.2 (by decide)

/-- **C5.** `ecma_bigint_div_mod` raises a range error exactly when the
right operand is the zero sentinel (checked before the left operand, so
0/0 is also that error); `0 ÷ x` returns the zero left value;
`|left| < |right|` gives quotient 0 and remainder = left;
`|left| = |right|` gives quotient of magnitude 1 and remainder 0; and
every record result carries quotient sign `leftSign XOR rightSign`,
remainder sign `leftSign`. -/
theorem div_mod_cases :
    (∀ (l : EBigInt) (is_mod : Bool),
      ecma_bigint_div_mod l .zero is_mod = .err .divByZero) ∧
    (∀ (l r : EBigInt) (is_mod : Bool) (e : EcmaError),
      ecma_bigint_div_mod l r is_mod = .err e → r = .zero ∧ e = .divByZero) ∧
    (∀ (rp : BigIntRec) (is_mod : Bool),
      ecma_bigint_div_mod .zero (.big rp) is_mod = .ok .zero) ∧
    (∀ lp rp : BigIntRec, lp.mag < rp.mag →
      ecma_bigint_div_mod (.big lp) (.big rp) false = .ok .zero ∧
      ecma_bigint_div_mod (.big lp) (.big rp) true = .ok (.big lp)) ∧
    (∀ lp rp : BigIntRec, lp.mag = rp.mag →
      ecma_bigint_div_mod (.big lp) (.big rp) false
        = .ok (.big ⟨lp.sign != rp.sign, 1⟩) ∧
      ecma_bigint_div_mod (.big lp) (.big rp) true = .ok .zero) ∧
    (∀ (lp rp p : BigIntRec) (is_mod : Bool),
      ecma_bigint_div_mod (.big lp) (.big rp) is_mod = .ok (.big p) →
      p.sign = if is_mod then lp.sign else (lp.sign != rp.sign)) := by
  refine ⟨?_, ?_, ?_, ?_, ?_, ?_⟩
  · intro l is_mod
    cases l <;> rfl
  · intro l r is_mod e h
    cases r with
    | zero =>
      refine ⟨rfl, ?_⟩
      cases l <;> (simp [ecma_bigint_div_mod] at h; exact h.symm)
    | big rp =>
      cases l with
      | zero => simp [ecma_bigint_div_mod] at h
      | big lp =>
        exfalso
        simp only [ecma_bigint_div_mod] at h
        split at h
        · split at h <;> simp at h
        · split at h
          · split at h <;> simp at h
          · split at h
            · simp at h
            · split at h <;> simp at h
  · intro rp is_mod
    rfl
  · intro lp rp hlt
    constructor <;> simp [ecma_bigint_div_mod, big_uint_compare, hlt]
  · intro lp rp heq
    constructor <;> simp [ecma_bigint_div_mod, big_uint_compare, heq]
  · intro lp rp p is_mod h
    simp only [ecma_bigint_div_mod] at h
    split at h
    · split at h
      · simp at h
      · simp only [BResult.ok.injEq, EBigInt.big.injEq] at h
        rw [← h]
        have hc : lp.mag < rp.mag := by
          by_contra hc
          simp [big_uint_compare, hc] at *
          omega
        -- remainder branch: is_mod is true here
        cases is_mod with
        | true => rfl
        | false => simp at *
    · split at h
      · split at h
        · simp at h
        · simp only [BResult.ok.injEq, EBigInt.big.injEq] at h
          rw [← h]
          cases is_mod with
          | true => simp at *
          | false => rfl
      · split at h
        · simp at h
        · split at h
          · simp only [BResult.ok.injEq, EBigInt.big.injEq] at h
            rw [← h]
            cases is_mod with
            | true => rfl
            | false => simp at *
          · simp only [BResult.ok.injEq, EBigInt.big.injEq] at h
            rw [← h]
            cases is_mod with
            | true => simp at *
            | false => rfl

/-- Witness for **C5**: 0/0 raises the division-by-zero range error, and
-7 / 2 = -3 with -7 mod 2 = -1 have the claimed signs. -/
theorem div_mod_cases_witness :
    ecma_bigint_div_mod .zero .zero false = .err .divByZero ∧
    (ecma_bigint_div_mod (.big ⟨true, 7⟩) (.big ⟨false, 2⟩) false
        = .ok (.big ⟨true, 3⟩) →
      (true : Bool) = (if false then true else (true != false))) := by
  refine ⟨div_mod_cases.1 .zero false, ?_⟩
  intro h
  exact div_mod_cases.2.2.2.2.2 ⟨true, 7⟩ ⟨false, 2⟩ ⟨true, 3⟩ false h

/-- **C6.** Every operation whose mathematical result is 0 returns the
zero sentinel, and no operation returns a heap record of magnitude 0:
`x - x`, addition of equal-magnitude opposite-sign values, `x mod x`, a
right shift discarding all bits, a positive AND with a zero kernel result
and parsing a string of only `'0'` digits all return the zero sentinel,
and add/sub, mul, div/mod, shift, and/or/xor and parse never return a
record of magnitude 0 on well-formed inputs. -/
theorem zero_canonicalization :
    (∀ x : EBigInt, ecma_bigint_add_sub x x false = .ok .zero) ∧
    (∀ (s : Bool) (m : Nat),
      ecma_bigint_add_sub (.big ⟨s, m⟩) (.big ⟨!s, m⟩) true = .ok .zero) ∧
    (∀ x : EBigInt, x ≠ .zero → ecma_bigint_div_mod x x true = .ok .zero) ∧
    (∀ (lp : BigIntRec) (k : Nat), k < 2 ^ 32 → lp.mag < 2 ^ k →
      ecma_bigint_shift (.big lp) (.big ⟨false, k⟩) false = .ok .zero) ∧
    (∀ lp rp : BigIntRec, lp.sign = false → rp.sign = false →
      lp.mag &&& rp.mag = 0 →
      ecma_bigint_and (.big lp) (.big rp) = .ok .zero) ∧
    (∀ (k : Nat) (opts : ParseOptions) (alloc : Nat → Bool),
      (ecma_bigint_parse_string (List.replicate (k + 1) 48) opts alloc).1
        = .bigint .zero) ∧
    (∀ (l r : EBigInt) (is_add : Bool) (p : BigIntRec), l.Wf → r.Wf →
      ecma_bigint_add_sub l r is_add = .ok (.big p) → 1 ≤ p.mag) ∧
    (∀ (l r : EBigInt) (p : BigIntRec), l.Wf → r.Wf →
      ecma_bigint_mul l r = .ok (.big p) → 1 ≤ p.mag) ∧
    (∀ (l r : EBigInt) (is_mod : Bool) (p : BigIntRec), l.Wf →
      ecma_bigint_div_mod l r is_mod = .ok (.big p) → 1 ≤ p.mag) ∧
    (∀ (l r : EBigInt) (is_left : Bool) (p : BigIntRec), l.Wf →
      ecma_bigint_shift l r is_left = .ok (.big p) → 1 ≤ p.mag) ∧
    (∀ (l r : EBigInt) (p : BigIntRec), l.Wf → r.Wf →
      (ecma_bigint_and l r = .ok (.big p) ∨ ecma_bigint_or l r = .ok (.big p)
        ∨ ecma_bigint_xor l r = .ok (.big p)) → 1 ≤ p.mag) ∧
    (∀ (s : List Nat) (opts : ParseOptions) (alloc : Nat → Bool) (p : BigIntRec),
      (ecma_bigint_parse_string s opts alloc).1 = .bigint (.big p) → 1 ≤ p.mag) := by
  refine ⟨?_, ?_, ?_, ?_, ?_, ?_,
    fun l r is_add p hl hr h => add_sub_record_pos l r is_add p hl hr h,
    fun l r p hl hr h => mul_record_pos l r p hl hr h,
    fun l r is_mod p hl h => div_mod_record_pos l r is_mod p hl h,
    fun l r is_left p hl h => shift_record_pos l r is_left p hl h,
    fun l r p hl hr h => and_or_xor_record_pos l r p hl hr h,
    fun s opts alloc p h => parse_record_pos s opts alloc p h⟩
  · intro x
    cases x with
    | zero => rfl
    | big lp => simp [ecma_bigint_add_sub, big_uint_compare]
  · intro s m
    cases s <;> simp [ecma_bigint_add_sub, big_uint_compare]
  · intro x hx
    cases x with
    | zero => exact absurd rfl hx
    | big lp => simp [ecma_bigint_div_mod, big_uint_compare]
  · intro lp k hk hlt
    have hs : sizeBytes k ≤ 4 := sizeBytes_le_four_iff.mpr hk
    rw [shift_small_amount lp ⟨false, k⟩ false hs]
    have hz : lp.mag >>> (k % 2 ^ 32) = 0 := by
      rw [Nat.mod_eq_of_lt hk, Nat.shiftRight_eq_div_pow]
      exact Nat.div_eq_of_lt hlt
    norm_num at hz
    simp [hz]
  · intro lp rp hl hr hz
    simp [ecma_bigint_and, hl, hr, ecma_bigint_bitwise_op, big_uint_bitwise_op, hz]
  · intro k opts alloc
    simp [ecma_bigint_parse_string, parseHead_replicate_zeros,
      dropWhile_beq48_replicate]

/-- Witness for **C6**: 7 - 7 and (-9) mod (-9) give the zero sentinel. -/
theorem zero_canonicalization_witness :
    ecma_bigint_add_sub (.big ⟨false, 7⟩) (.big ⟨false, 7⟩) false = .ok .zero ∧
    ecma_bigint_div_mod (.big ⟨true, 9⟩) (.big ⟨true, 9⟩) true = .ok .zero := by
  exact ⟨zero_canonicalization.1 (.big ⟨false, 7⟩),
    zero_canonicalization.2.2.1 (.big ⟨true, 9⟩) (by decide)⟩

/-- **C8.** Error paths of `ecma_bigint_parse_string`: empty input gives
the FALSE sentinel under `DISALLOW_SYNTAX_ERROR` and a syntax error
otherwise; toggling `DISALLOW_SYNTAX_ERROR` exchanges exactly the FALSE
sentinel and the syntax error, toggling `DISALLOW_MEMORY_ERROR` exchanges
exactly the NULL sentinel and the memory range error; and no error path
leaks a partial result (the live-record count at return is 0 except for a
returned BigInt record, which owns exactly one). -/
theorem parse_string_error_paths :
    (∀ (opts : ParseOptions) (alloc : Nat → Bool),
      ecma_bigint_parse_string [] opts alloc
        = if opts.noSynError then (.boolFalse, 0) else (.err .invalidInput, 0)) ∧
    (∀ (s : List Nat) (neg mem : Bool) (alloc : Nat → Bool),
      ((ecma_bigint_parse_string s ⟨neg, true, mem⟩ alloc).1 = .boolFalse
        ↔ (ecma_bigint_parse_string s ⟨neg, false, mem⟩ alloc).1
            = .err .invalidInput)) ∧
    (∀ (s : List Nat) (neg syn : Bool) (alloc : Nat → Bool),
      ((ecma_bigint_parse_string s ⟨neg, syn, true⟩ alloc).1 = .null
        ↔ (ecma_bigint_parse_string s ⟨neg, syn, false⟩ alloc).1
            = .err .memory)) ∧
    (∀ (s : List Nat) (opts : ParseOptions) (alloc : Nat → Bool),
      (ecma_bigint_parse_string s opts alloc).2
        = match (ecma_bigint_parse_string s opts alloc).1 with
          | .bigint (.big _) => 1
          | _ => 0) ∧
    (∀ (s : List Nat) (opts : ParseOptions) (alloc : Nat → Bool),
      ((ecma_bigint_parse_string s opts alloc).1 = .boolFalse →
        opts.noSynError = true) ∧
      ((ecma_bigint_parse_string s opts alloc).1 = .err .invalidInput →
        opts.noSynError = false) ∧
      ((ecma_bigint_parse_string s opts alloc).1 = .null →
        opts.noMemError = true) ∧
      ((ecma_bigint_parse_string s opts alloc).1 = .err .memory →
        opts.noMemError = false)) := by
  exact ⟨fun opts alloc => rfl, parse_syn_toggle, parse_mem_toggle,
    parse_live_count, parse_flag_necessity⟩

/-- Witness for **C8**: parsing the empty string with and without
`DISALLOW_SYNTAX_ERROR`. -/
theorem parse_string_error_paths_witness :
    ecma_bigint_parse_string [] ⟨false, true, false⟩ (fun _ => true)
      = (.boolFalse, 0) ∧
    ecma_bigint_parse_string [] ⟨false, false, false⟩ (fun _ => true)
      = (.err .invalidInput, 0) := by
  constructor
  · have h := parse_string_error_paths.1 ⟨false, true, false⟩ (fun _ => true)
    simpa using h
  · have h := parse_string_error_paths.1 ⟨false, false, false⟩ (fun _ => true)
    simpa using h

/-- **C7.** `ecma_bigint_shift`: a negative right operand inverts the shift
direction; a right magnitude of more than one digit gives a memory error
for an effective left shift and the zero sentinel for an effective right
shift; otherwise the single low digit of the right operand is the shift
amount; and every non-zero result carries the left operand's sign. -/
theorem shift_direction_and_sign :
    (∀ (lp : BigIntRec) (m : Nat) (is_left : Bool),
      ecma_bigint_shift (.big lp) (.big ⟨true, m⟩) is_left
        = ecma_bigint_shift (.big lp) (.big ⟨false, m⟩) (!is_left)) ∧
    (∀ (lp rp : BigIntRec) (is_left : Bool), 4 < sizeBytes rp.mag →
      ecma_bigint_shift (.big lp) (.big rp) is_left
        = if is_left != rp.sign then .err .memory else .ok .zero) ∧
    (∀ (lp rp : BigIntRec) (is_left : Bool), sizeBytes rp.mag ≤ 4 →
      ecma_bigint_shift (.big lp) (.big rp) is_left
        = if is_left != rp.sign then
            .ok (.big ⟨lp.sign, lp.mag <<< (rp.mag % 2 ^ 32)⟩)
          else if lp.mag >>> (rp.mag % 2 ^ 32) = 0 then .ok .zero
          else .ok (.big ⟨lp.sign, lp.mag >>> (rp.mag % 2 ^ 32)⟩)) ∧
    (∀ (lp : BigIntRec) (r : EBigInt) (is_left : Bool) (p : BigIntRec),
      ecma_bigint_shift (.big lp) r is_left = .ok (.big p) →
      p.sign = lp.sign) := by
  refine ⟨?_, shift_big_amount, shift_small_amount, ?_⟩
  · intro lp m is_left
    simp [ecma_bigint_shift]
  · intro lp r is_left p h
    cases r with
    | zero =>
      simp only [ecma_bigint_shift, BResult.ok.injEq, EBigInt.big.injEq] at h
      rw [← h]
    | big rp =>
      by_cases hs : 4 < sizeBytes rp.mag
      · rw [shift_big_amount lp rp is_left hs] at h
        split at h <;> simp at h
      · rw [shift_small_amount lp rp is_left (by omega)] at h
        split at h
        · simp only [BResult.ok.injEq, EBigInt.big.injEq] at h
          rw [← h]
        · split at h
          · simp at h
          · simp only [BResult.ok.injEq, EBigInt.big.injEq] at h
            rw [← h]

/-- Witness for **C7**: `1n << 65n = 2^65` (spec scenario 8), and a
two-digit shift amount (2^32) gives a memory error for a left shift and
zero for a right shift. -/
theorem shift_direction_and_sign_witness :
    ecma_bigint_shift (.big ⟨false, 1⟩) (.big ⟨false, 65⟩) true
      = .ok (.big ⟨false, 36893488147419103232⟩) ∧
    ecma_bigint_shift (.big ⟨false, 1⟩) (.big ⟨false, 2 ^ 32⟩) true
      = .err .memory ∧
    ecma_bigint_shift (.big ⟨false, 1⟩) (.big ⟨false, 2 ^ 32⟩) false
      = .ok .zero := by
  have h65 : digitsOfNat 65 = [65] := digitsOfNat_of_lt (by norm_num) (by norm_num)
  have hs : sizeBytes 65 ≤ 4 := by simp [sizeBytes, h65]
  have hb : 4 < sizeBytes (2 ^ 32) := sizeBytes_of_ge (le_refl _)
  refine ⟨?_, ?_, ?_⟩
  · have h := shift_direction_and_sign.2.2.1 ⟨false, 1⟩ ⟨false, 65⟩ true hs
    simpa using h
  · have h := shift_direction_and_sign.2.1 ⟨false, 1⟩ ⟨false, 2 ^ 32⟩ true hb
    simpa using h
  · have h := shift_direction_and_sign.2.1 ⟨false, 1⟩ ⟨false, 2 ^ 32⟩ false hb
    simpa using h

/-- **C9.** In `ecma_bigint_compare_to_number`, when the magnitude sizes
match and the BigInt's high digits equal the decoded digits of the number
from the most significant end, the result is the left sign if any
remaining low digit of the BigInt is non-zero, otherwise 0 without a
fractional tail and the negated left sign with one; in particular
`compare(10n, 10.5) = -1` and `compare(10n, 9.5) = +1`. -/
theorem compare_to_number_equal_digit_cases :
    (∀ (lp : BigIntRec) (n : EcmaNumber),
      EcmaNumber.isZero n = false →
      ecma_bigint_to_sign lp.sign ≠ (if n.gtZero then -1 else 1) →
      EcmaNumber.isInfinity n = false →
      (ecma_bigint_number_to_digits n).digits ≠ [] →
      (digitsOfNat lp.mag).length
        = (ecma_bigint_number_to_digits n).digits.length
          + (ecma_bigint_number_to_digits n).zeroDigits →
      (digitsOfNat lp.mag).drop (ecma_bigint_number_to_digits n).zeroDigits
        = (ecma_bigint_number_to_digits n).digits →
      ecma_bigint_compare_to_number (.big lp) n
        = if ((digitsOfNat lp.mag).take
              (ecma_bigint_number_to_digits n).zeroDigits).any (fun d => d != 0)
          then ecma_bigint_to_sign lp.sign
          else if (ecma_bigint_number_to_digits n).hasFraction
          then -ecma_bigint_to_sign lp.sign
          else 0) ∧
    ecma_bigint_compare_to_number (.big ⟨false, 10⟩) ⟨false, 1026, 5 * 2 ^ 48⟩ = -1 ∧
    ecma_bigint_compare_to_number (.big ⟨false, 10⟩) ⟨false, 1026, 3 * 2 ^ 48⟩ = 1 := by
  have hL10 : digitsOfNat 10 = [10] := digitsOfNat_of_lt (by norm_num) (by norm_num)
  refine ⟨?_, ?_, ?_⟩
  · intro lp n h0 h1 h2 h3 h4 h5
    have hb : (ecma_bigint_to_sign lp.sign == (if n.gtZero then -1 else 1)) = false :=
      beq_eq_false_iff_ne.mpr h1
    have hlen : (ecma_bigint_number_to_digits n).digits.length ≠ 0 :=
      fun hc => h3 (List.length_eq_zero.mp hc)
    have hsz : sizeBytes lp.mag
        = 4 * (ecma_bigint_number_to_digits n).digits.length
          + 4 * (ecma_bigint_number_to_digits n).zeroDigits := by
      rw [sizeBytes, h4]
      ring
    simp [ecma_bigint_compare_to_number, h0, hb, h2, hlen, hsz, h5,
      msbCompare_self]
  · have hd : ecma_bigint_number_to_digits ⟨false, 1026, 1407374883553280⟩
        = ⟨[10], true, 0⟩ := by decide
    simp [ecma_bigint_compare_to_number, hd, hL10, sizeBytes, msbCompare,
      EcmaNumber.gtZero, EcmaNumber.isNaN, EcmaNumber.isZero,
      EcmaNumber.isInfinity, ecma_bigint_to_sign]
  · have hd : ecma_bigint_number_to_digits ⟨false, 1026, 844424930131968⟩
        = ⟨[9], true, 0⟩ := by decide
    simp [ecma_bigint_compare_to_number, hd, hL10, sizeBytes, msbCompare,
      EcmaNumber.gtZero, EcmaNumber.isNaN, EcmaNumber.isZero,
      EcmaNumber.isInfinity, ecma_bigint_to_sign]

/-- Witness for **C9**: the general equal-digit case instantiated at
10n against 10.5 — all hypotheses hold there and the fractional tail
gives -1. -/
theorem compare_to_number_equal_digit_cases_witness :
    ecma_bigint_compare_to_number (.big ⟨false, 10⟩) ⟨false, 1026, 5 * 2 ^ 48⟩ = -1 := by
  have hL10 : digitsOfNat 10 = [10] := digitsOfNat_of_lt (by norm_num) (by norm_num)
  have hd : ecma_bigint_number_to_digits ⟨false, 1026, 5 * 2 ^ 48⟩ = ⟨[10], true, 0⟩ := by
    decide
  have h := compare_to_number_equal_digit_cases.1 ⟨false, 10⟩ ⟨false, 1026, 5 * 2 ^ 48⟩
    (by decide) (by decide) (by decide) (by rw [hd]; decide)
    (by rw [hd, hL10]; decide) (by rw [hd, hL10]; decide)
  rw [h, hd, hL10]
  decide

/-- **C10.** `ecma_bigint_compare_to_bigint` has no zero-sentinel branch:
it unconditionally reinterprets both operands as heap records, so the
value-level function is defined exactly when neither operand is the zero
sentinel — unlike `ecma_bigint_is_equal_to_bigint`, which handles the zero
sentinel on either side. -/
theorem compare_to_bigint_requires_nonzero :
    ∀ l r : EBigInt,
      ((compare_to_bigint_value l r).isSome ↔ l ≠ .zero ∧ r ≠ .zero) ∧
      ecma_bigint_is_equal_to_bigint .zero r = decide (r = .zero) ∧
      ecma_bigint_is_equal_to_bigint l .zero = decide (l = .zero) := by
  intro l r
  refine ⟨?_, ?_, ?_⟩
  · cases l <;> cases r <;>
      simp [compare_to_bigint_value]
  · cases r <;> simp [ecma_bigint_is_equal_to_bigint]
  · cases l <;> simp [ecma_bigint_is_equal_to_bigint]
